import Mathlib

/-!
Shallow embedding of the LiberTEM dask executor core
(`src/libertem/executor/dask.py`) and the numeric-library thread-count
scoping utilities (`src/libertem/utils/threading.py`).

Modelling conventions:
- A `Task` is opaque except for its `locations` hint and the (numeric) result
  its execution produces; a `Job` is an ordered list of tasks plus an identity
  (Python object identity, used as the tracker key).
- The dask client / worker pool is modelled as a `PoolState`: a log of
  submissions (each submission produces a `Future` whose id is its global
  submission index) and a log of cancellation requests.
- `dd.as_completed(futures, with_results=True)` is modelled by an externally
  supplied completion `order` (a list of indices into the submitted futures of
  one job); the pair `(future, result)` delivered for index `i` is the `i`-th
  future together with its task's result.  External cancellation is an oracle
  `canc : Nat → Bool` on future ids, consulted exactly where the source calls
  `future.cancelled()`.
- Python generators are modelled by the full iteration outcome: the list of
  results yielded before termination, together with `none` (exhausted
  normally) or `some e` (the iteration raised `e`).
- Exceptions are the inductive `PyError`; `ValueError("no workers found for
  task")` is the error `_get_futures` raises for an explicitly empty location
  list, and `JobCancelledError` the one `AsyncDaskJobExecutor.run_job` raises
  for a cancelled future.
-/

namespace LiberTEM

inductive PyError where
  | valueError (msg : String)
  | jobCancelledError
  | attributeError
  | timeoutError
deriving Repr, DecidableEq

structure Task where
  locations : Option (List Nat)
  result : Nat
deriving Repr, DecidableEq

structure Job where
  id : Nat
  tasks : List Task
deriving Repr, DecidableEq

structure Future where
  id : Nat
  workers : Option (List Nat)
  result : Nat
deriving Repr, DecidableEq

structure PoolState where
  submitted : List Future
  cancelRequests : List (List Nat)
deriving Repr, DecidableEq

def emptyPool : PoolState := { submitted := [], cancelRequests := [] }

/-- `self.client.submit(task, workers=...)`: enqueues one unit of work and
returns a fresh future (id = position in the global submission log). -/
def clientSubmit (pool : PoolState) (workers : Option (List Nat)) (result : Nat) :
    Future × PoolState :=
  let f : Future := { id := pool.submitted.length, workers := workers, result := result }
  (f, { pool with submitted := pool.submitted ++ [f] })

/-- `await self.client.cancel(futures)`: logs one cancellation request for the
given futures. -/
def clientCancel (pool : PoolState) (futures : List Future) : PoolState :=
  { pool with cancelRequests := pool.cancelRequests ++ [futures.map Future.id] }

/-- Loop body of `CommonDaskMixin._get_futures`: for each task, read
`task.get_locations()`; if it is not None and has length zero raise
`ValueError("no workers found for task")`; otherwise submit with
`workers=locations` and append the future. -/
def getFuturesGo : List Task → List Future → PoolState →
    Except PyError (List Future) × PoolState
  | [], acc, pool => (Except.ok acc, pool)
  | task :: rest, acc, pool =>
    match task.locations with
    | some locs =>
      if locs.length = 0 then
        (Except.error (PyError.valueError "no workers found for task"), pool)
      else
        let fp := clientSubmit pool (some locs) task.result
        getFuturesGo rest (acc ++ [fp.1]) fp.2
    | none =>
      let fp := clientSubmit pool none task.result
      getFuturesGo rest (acc ++ [fp.1]) fp.2

/-- `CommonDaskMixin._get_futures(job)`. -/
def getFutures (job : Job) (pool : PoolState) :
    Except PyError (List Future) × PoolState :=
  getFuturesGo job.tasks [] pool

/-- `dd.as_completed(futures, with_results=True)`: delivers the futures in the
externally determined completion `order` (indices into `futures`). -/
def asCompleted (futures : List Future) (order : List Nat) : List Future :=
  order.filterMap (fun i => futures.get? i)

/-- Synchronous `DaskJobExecutor.run_job`: submit all tasks via
`_get_futures`, then yield each delivered result in completion order.  The
source never consults `future.cancelled()` here, so the cancellation oracle
`canc` is an unused part of the environment. -/
def DaskJobExecutor.run_job (job : Job) (pool : PoolState) (order : List Nat)
    (canc : Nat → Bool) : (List Nat × Option PyError) × PoolState :=
  match getFutures job pool with
  | (Except.error e, pool1) => (([], some e), pool1)
  | (Except.ok futures, pool1) =>
    (((asCompleted futures order).map Future.result, none), pool1)

/-- The tracker `self._futures` of `AsyncDaskJobExecutor`: a Python dict from
job identity to the job's futures, as an association list that never holds a
key twice. -/
def mapErase (m : List (Nat × List Future)) (k : Nat) : List (Nat × List Future) :=
  m.filter (fun p => p.1 != k)

def mapInsert (m : List (Nat × List Future)) (k : Nat) (v : List Future) :
    List (Nat × List Future) :=
  mapErase m k ++ [(k, v)]

def mapLookup (m : List (Nat × List Future)) (k : Nat) : Option (List Future) :=
  (m.find? (fun p => p.1 == k)).map Prod.snd

structure AsyncState where
  pool : PoolState
  futuresMap : List (Nat × List Future)
deriving Repr, DecidableEq

def emptyAsyncState : AsyncState := { pool := emptyPool, futuresMap := [] }

/-- Lines 58-59 of `AsyncDaskJobExecutor.run_job`:
`futures = self._get_futures(job); self._futures[job] = futures`.  A plain
dict assignment: any entry already present for the job is replaced. -/
def runJobRegister (st : AsyncState) (job : Job) :
    Except PyError (List Future) × AsyncState :=
  match getFutures job st.pool with
  | (Except.error e, pool1) => (Except.error e, { st with pool := pool1 })
  | (Except.ok futures, pool1) =>
    (Except.ok futures,
     { pool := pool1, futuresMap := mapInsert st.futuresMap job.id futures })

/-- The `async for` loop of `AsyncDaskJobExecutor.run_job`: for each delivered
future, if `future.cancelled()` raise `JobCancelledError`, else yield the
result. -/
def asyncStreamLoop (canc : Nat → Bool) :
    List Future → List Nat → List Nat × Option PyError
  | [], acc => (acc, none)
  | f :: rest, acc =>
    if canc f.id then (acc, some PyError.jobCancelledError)
    else asyncStreamLoop canc rest (acc ++ [f.result])

/-- `AsyncDaskJobExecutor.run_job`: submit and register, drive the completion
stream, and only when the stream is exhausted normally execute
`del self._futures[job]`. -/
def AsyncDaskJobExecutor.run_job (st : AsyncState) (job : Job) (order : List Nat)
    (canc : Nat → Bool) : (List Nat × Option PyError) × AsyncState :=
  match runJobRegister st job with
  | (Except.error e, st1) => (([], some e), st1)
  | (Except.ok futures, st1) =>
    match asyncStreamLoop canc (asCompleted futures order) [] with
    | (results, none) =>
      ((results, none), { st1 with futuresMap := mapErase st1.futuresMap job.id })
    | (results, some e) => ((results, some e), st1)

/-- `AsyncDaskJobExecutor.cancel_job`: if the job is tracked, request
cancellation of its futures from the pool; otherwise do nothing. -/
def AsyncDaskJobExecutor.cancel_job (st : AsyncState) (job : Job) : AsyncState :=
  match mapLookup st.futuresMap job.id with
  | some futures => { st with pool := clientCancel st.pool futures }
  | none => st

structure Partition where
  locations : Option (List Nat)
  result : Nat
deriving Repr, DecidableEq

/-- Submission loop of `DaskJobExecutor.map_partitions`: every partition is
submitted with `workers=partition.get_locations()`, with no check of any
kind on the locations. -/
def mapPartitionsSubmit : List Partition → PoolState → List Future × PoolState
  | [], pool => ([], pool)
  | p :: ps, pool =>
    let fp := clientSubmit pool p.locations p.result
    let rest := mapPartitionsSubmit ps fp.2
    (fp.1 :: rest.1, rest.2)

/-- `DaskJobExecutor.map_partitions`: submit every partition, then yield the
delivered results in completion order. -/
def DaskJobExecutor.map_partitions (partitions : List Partition)
    (pool : PoolState) (order : List Nat) : (List Nat × Option PyError) × PoolState :=
  match mapPartitionsSubmit partitions pool with
  | (futures, pool1) => (((asCompleted futures order).map Future.result, none), pool1)

structure Cluster where
  closed : Bool
  closeTimesOut : Bool
deriving Repr, DecidableEq

structure ClientConn where
  cluster : Option Cluster
  closed : Bool
deriving Repr, DecidableEq

/-- `cluster.close(timeout=1)`: raises `tornado.util.TimeoutError` when the
bounded wait is exceeded. -/
def Cluster.close (cl : Cluster) : Except PyError Cluster :=
  if cl.closeTimesOut then Except.error PyError.timeoutError
  else Except.ok { cl with closed := true }

/-- Synchronous `DaskJobExecutor.close`: if `is_local` and
`self.client.cluster is not None`, close the cluster swallowing only
`TimeoutError`; then `self.client.close()`.  Any attribute access on a `None`
client raises `AttributeError`, and nothing here catches it. -/
def DaskJobExecutor.close (is_local : Bool) (client : Option ClientConn) :
    Except PyError (Option ClientConn) :=
  match client with
  | none => Except.error PyError.attributeError
  | some c =>
    if is_local then
      match c.cluster with
      | some cl =>
        match Cluster.close cl with
        | Except.ok cl1 => Except.ok (some { c with cluster := some cl1, closed := true })
        | Except.error PyError.timeoutError => Except.ok (some { c with closed := true })
        | Except.error e => Except.error e
      | none => Except.ok (some { c with closed := true })
    else Except.ok (some { c with closed := true })

/-- `AsyncDaskJobExecutor.close`: the whole body is inside
`try: ... except Exception: log.exception(...)`, and a `None` client is
detected first (logged, early return), so no exception ever escapes. -/
def AsyncDaskJobExecutor.close (is_local : Bool) (client : Option ClientConn) :
    Except PyError (Option ClientConn) :=
  match client with
  | none => Except.ok none
  | some c =>
    let c1 : ClientConn := { c with closed := true }
    if is_local then
      match c1.cluster with
      | none => Except.ok (some c1)
      | some cl =>
        match Cluster.close cl with
        | Except.ok cl1 => Except.ok (some { c1 with cluster := some cl1 })
        | Except.error _ => Except.ok (some c1)
    else Except.ok (some c1)

/-! Thread-count scoping, `src/libertem/utils/threading.py`.  The mutable
global thread counts of the numeric libraries form a `ThreadState`; a context
manager becomes a higher-order function on bodies of type
`ThreadState → Except PyError Nat × ThreadState` (the body may raise, and its
mutations of the globals persist either way, as in Python). -/

structure ThreadState where
  numba : Nat
  fftw : Nat
  blas : Nat
deriving Repr, DecidableEq

def ThreadBody := ThreadState → Except PyError Nat × ThreadState

/-- `threadpoolctl.threadpool_limits(n)`: limits the BLAS-style pools for the
scope and restores them afterwards. -/
def threadpool_limits (n : Nat) (body : ThreadBody) : ThreadBody := fun s =>
  let saved := s.blas
  let out := body { s with blas := n }
  (out.1, { out.2 with blas := saved })

/-- `set_fftw_threads(n)`: when pyfftw is importable, save
`pyfftw.config.NUM_THREADS`, set it to `n`, and restore it in a `finally`;
when pyfftw is absent the context manager is a bare `yield`. -/
def set_fftw_threads (pyfftwPresent : Bool) (n : Nat) (body : ThreadBody) :
    ThreadBody := fun s =>
  if pyfftwPresent then
    let saved := s.fftw
    let out := body { s with fftw := n }
    (out.1, { out.2 with fftw := saved })
  else body s

/-- `set_numba_threads(n)`: save `numba.get_num_threads()`, set to `n`,
restore in a `finally`. -/
def set_numba_threads (n : Nat) (body : ThreadBody) : ThreadBody := fun s =>
  let saved := s.numba
  let out := body { s with numba := n }
  (out.1, { out.2 with numba := saved })

/-- `set_num_threads(n)`: `with threadpool_limits(n), set_fftw_threads(n),
set_numba_threads(n): yield`. -/
def set_num_threads (pyfftwPresent : Bool) (n : Nat) (body : ThreadBody) :
    ThreadBody :=
  threadpool_limits n (set_fftw_threads pyfftwPresent n (set_numba_threads n body))

/-! Helper description of the futures `_get_futures` produces on the
success path: task `i` becomes the future with id `base + i`, constrained to
the task's locations, carrying the task's result. -/

def mkFutures (base : Nat) : List Task → List Future
  | [] => []
  | t :: ts =>
    { id := base, workers := t.locations, result := t.result } :: mkFutures (base + 1) ts

theorem mkFutures_length (base : Nat) (ts : List Task) :
    (mkFutures base ts).length = ts.length := by
  induction ts generalizing base with
  | nil => rfl
  | cons t rest ih => simp [mkFutures, ih]

theorem mkFutures_get? (base i : Nat) (ts : List Task) :
    (mkFutures base ts).get? i =
      (ts.get? i).map
        (fun t => { id := base + i, workers := t.locations, result := t.result }) := by
  induction ts generalizing base i with
  | nil => simp [mkFutures]
  | cons t rest ih =>
    cases i with
    | zero => simp [mkFutures]
    | succ j =>
      simp only [mkFutures, List.get?_cons_succ, ih (base + 1) j]
      have h : base + 1 + j = base + (j + 1) := by omega
      rw [h]

theorem mkFutures_map_result (base : Nat) (ts : List Task) :
    (mkFutures base ts).map Future.result = ts.map Task.result := by
  induction ts generalizing base with
  | nil => rfl
  | cons t rest ih => simp [mkFutures, ih]

theorem getFuturesGo_cancelRequests (ts : List Task) (acc : List Future)
    (pool : PoolState) :
    (getFuturesGo ts acc pool).2.cancelRequests = pool.cancelRequests := by
  induction ts generalizing acc pool with
  | nil => rfl
  | cons t rest ih =>
    cases hl : t.locations with
    | none => simpa [getFuturesGo, hl, clientSubmit] using ih _ _
    | some locs =>
      by_cases h0 : locs.length = 0
      · simp [getFuturesGo, hl, h0]
      · simpa [getFuturesGo, hl, h0, clientSubmit] using ih _ _

theorem getFuturesGo_ok (ts : List Task) (acc : List Future) (pool : PoolState)
    (hloc : ∀ t ∈ ts, t.locations ≠ some []) :
    getFuturesGo ts acc pool =
      (Except.ok (acc ++ mkFutures pool.submitted.length ts),
       { pool with submitted := pool.submitted ++ mkFutures pool.submitted.length ts }) := by
  induction ts generalizing acc pool with
  | nil => simp [getFuturesGo, mkFutures]
  | cons t rest ih =>
    have ht : t.locations ≠ some [] := hloc t (List.mem_cons_self t rest)
    have hrest : ∀ x ∈ rest, x.locations ≠ some [] :=
      fun x hx => hloc x (List.mem_cons_of_mem t hx)
    cases hl : t.locations with
    | none =>
      simp only [getFuturesGo, hl, clientSubmit]
      rw [ih _ _ hrest]
      simp [mkFutures, hl, List.append_assoc]
    | some locs =>
      have h0 : ¬ locs.length = 0 := by
        intro h
        exact ht (by rw [hl, List.length_eq_zero.mp h])
      simp only [getFuturesGo, hl, h0, if_false, clientSubmit]
      rw [ih _ _ hrest]
      simp [mkFutures, hl, List.append_assoc]

/-- On the failure path (some task has an explicitly empty location list),
`_get_futures` raises the `ValueError` and has submitted exactly the tasks
strictly before the first offending one, cancelling nothing. -/
theorem getFuturesGo_error (ts : List Task) (acc : List Future) (pool : PoolState)
    (hbad : ∃ t ∈ ts, t.locations = some []) :
    (getFuturesGo ts acc pool).1 =
        Except.error (PyError.valueError "no workers found for task") ∧
      (getFuturesGo ts acc pool).2.submitted.length =
        pool.submitted.length +
          ts.findIdx (fun t => decide (t.locations = some [])) := by
  induction ts generalizing acc pool with
  | nil => simp at hbad
  | cons t rest ih =>
    cases hl : t.locations with
    | none =>
      have hbad2 : ∃ x ∈ rest, x.locations = some [] := by
        rcases hbad with ⟨x, hx, hxl⟩
        cases List.mem_cons.mp hx with
        | inl he => rw [he] at hxl; rw [hl] at hxl; cases hxl
        | inr hm => exact ⟨x, hm, hxl⟩
      have := ih (acc ++ [(clientSubmit pool none t.result).1])
        (clientSubmit pool none t.result).2 hbad2
      constructor
      · simpa [getFuturesGo, hl] using this.1
      · have h2 := this.2
        simp only [clientSubmit] at h2
        simp only [getFuturesGo, hl, clientSubmit]
        rw [h2]
        simp [List.findIdx_cons, hl]
        omega
    | some locs =>
      by_cases h0 : locs.length = 0
      · have hloc0 : locs = [] := List.length_eq_zero.mp h0
        subst hloc0
        constructor
        · simp [getFuturesGo, hl, h0]
        · simp [getFuturesGo, hl, h0, List.findIdx_cons]
      · have hbad2 : ∃ x ∈ rest, x.locations = some [] := by
          rcases hbad with ⟨x, hx, hxl⟩
          cases List.mem_cons.mp hx with
          | inl he =>
            rw [he, hl] at hxl
            cases hxl
            exact absurd rfl h0
          | inr hm => exact ⟨x, hm, hxl⟩
        have := ih (acc ++ [(clientSubmit pool (some locs) t.result).1])
          (clientSubmit pool (some locs) t.result).2 hbad2
        constructor
        · simpa [getFuturesGo, hl, h0] using this.1
        · have h2 := this.2
          simp only [clientSubmit, List.length_append] at h2
          simp only [getFuturesGo, hl, h0, if_false, clientSubmit]
          rw [h2]
          have hlocne : ¬ (locs = []) := fun h => h0 (by simp [h])
          simp [List.findIdx_cons, hl, hlocne, clientSubmit]
          omega

theorem asyncStreamLoop_nocancel (canc : Nat → Bool) (hc : ∀ n, canc n = false)
    (fs : List Future) (acc : List Nat) :
    asyncStreamLoop canc fs acc = (acc ++ fs.map Future.result, none) := by
  induction fs generalizing acc with
  | nil => simp [asyncStreamLoop]
  | cons f rest ih => simp [asyncStreamLoop, hc f.id, ih, List.append_assoc]

theorem asyncStreamLoop_cancelled_iff (canc : Nat → Bool) (fs : List Future)
    (acc : List Nat) :
    (asyncStreamLoop canc fs acc).2 = some PyError.jobCancelledError ↔
      ∃ f ∈ fs, canc f.id = true := by
  induction fs generalizing acc with
  | nil => simp [asyncStreamLoop]
  | cons f rest ih =>
    cases hf : canc f.id with
    | true =>
      have h1 : asyncStreamLoop canc (f :: rest) acc =
          (acc, some PyError.jobCancelledError) := by
        simp [asyncStreamLoop, hf]
      rw [h1]
      constructor
      · intro _
        exact ⟨f, List.mem_cons_self f rest, hf⟩
      · intro _
        rfl
    | false =>
      have h1 : asyncStreamLoop canc (f :: rest) acc =
          asyncStreamLoop canc rest (acc ++ [f.result]) := by
        simp [asyncStreamLoop, hf]
      rw [h1, ih]
      constructor
      · rintro ⟨x, hx, hxc⟩
        exact ⟨x, List.mem_cons_of_mem f hx, hxc⟩
      · rintro ⟨x, hx, hxc⟩
        cases List.mem_cons.mp hx with
        | inl he =>
          rw [he, hf] at hxc
          cases hxc
        | inr hm => exact ⟨x, hm, hxc⟩

theorem asyncStreamLoop_error_eq (canc : Nat → Bool) (fs : List Future)
    (acc : List Nat) (e : PyError) :
    (asyncStreamLoop canc fs acc).2 = some e → e = PyError.jobCancelledError := by
  induction fs generalizing acc with
  | nil => simp [asyncStreamLoop]
  | cons f rest ih =>
    cases hf : canc f.id with
    | true =>
      have h1 : asyncStreamLoop canc (f :: rest) acc =
          (acc, some PyError.jobCancelledError) := by
        simp [asyncStreamLoop, hf]
      rw [h1]
      intro h
      cases h
      rfl
    | false =>
      have h1 : asyncStreamLoop canc (f :: rest) acc =
          asyncStreamLoop canc rest (acc ++ [f.result]) := by
        simp [asyncStreamLoop, hf]
      rw [h1]
      exact ih _

theorem filterMap_get?_length {α : Type} (order : List Nat) (l : List α)
    (h : ∀ i ∈ order, i < l.length) :
    (order.filterMap (fun i => l.get? i)).length = order.length := by
  induction order with
  | nil => rfl
  | cons a rest ih =>
    have ha : a < l.length := h a (List.mem_cons_self a rest)
    rw [List.filterMap_cons_some (List.get?_eq_get ha)]
    simp only [List.length_cons]
    rw [ih (fun i hi => h i (List.mem_cons_of_mem a hi))]

theorem filterMap_get?_range {α : Type} (l : List α) :
    (List.range l.length).filterMap (fun i => l.get? i) = l := by
  induction l with
  | nil => simp
  | cons x rest ih =>
    rw [List.length_cons, List.range_succ_eq_map]
    show x :: (List.map Nat.succ (List.range rest.length)).filterMap
        (fun i => (x :: rest).get? i) = x :: rest
    rw [List.filterMap_map]
    have hc : ((fun i => (x :: rest).get? i) ∘ Nat.succ) = fun i => rest.get? i := by
      funext i
      rfl
    rw [hc, ih]

theorem filterMap_get?_get? {α : Type} (order : List Nat) (l : List α)
    (h : ∀ i ∈ order, i < l.length) (k i : Nat) (hk : order.get? k = some i) :
    (order.filterMap (fun j => l.get? j)).get? k = l.get? i := by
  induction order generalizing k with
  | nil => cases hk
  | cons a rest ih =>
    have ha : a < l.length := h a (List.mem_cons_self a rest)
    rw [List.filterMap_cons_some (List.get?_eq_get ha)]
    cases k with
    | zero =>
      cases hk
      simp [List.get?_eq_get ha]
    | succ k1 =>
      simp only [List.get?_cons_succ] at hk ⊢
      exact ih (fun j hj => h j (List.mem_cons_of_mem a hj)) k1 hk

theorem mapErase_lookup_self (m : List (Nat × List Future)) (k : Nat) :
    mapLookup (mapErase m k) k = none := by
  unfold mapLookup
  have : (mapErase m k).find? (fun p => p.1 == k) = none := by
    rw [List.find?_eq_none]
    intro x hx
    have hk := List.of_mem_filter hx
    simpa using hk
  rw [this]
  rfl

theorem mapLookup_insert_self (m : List (Nat × List Future)) (k : Nat)
    (v : List Future) :
    mapLookup (mapInsert m k v) k = some v := by
  unfold mapLookup mapInsert
  rw [List.find?_append]
  have h1 : (mapErase m k).find? (fun p => p.1 == k) = none := by
    rw [List.find?_eq_none]
    intro x hx
    have hk := List.of_mem_filter hx
    simpa using hk
  rw [h1]
  simp [List.find?]

theorem mapPartitionsSubmit_eq (ps : List Partition) (pool : PoolState) :
    mapPartitionsSubmit ps pool =
      (mkFutures pool.submitted.length
        (ps.map (fun p => { locations := p.locations, result := p.result })),
       { pool with
         submitted := pool.submitted ++
           mkFutures pool.submitted.length
             (ps.map (fun p => { locations := p.locations, result := p.result })) }) := by
  induction ps generalizing pool with
  | nil => simp [mapPartitionsSubmit, mkFutures]
  | cons p rest ih =>
    simp only [mapPartitionsSubmit, clientSubmit, List.map_cons]
    rw [ih]
    simp [mkFutures, List.append_assoc]

theorem getFuturesGo_error_eq (ts : List Task) (acc : List Future)
    (pool : PoolState) (e : PyError) (pool1 : PoolState)
    (h : getFuturesGo ts acc pool = (Except.error e, pool1)) :
    e = PyError.valueError "no workers found for task" := by
  induction ts generalizing acc pool with
  | nil => simp [getFuturesGo] at h
  | cons t rest ih =>
    cases hl : t.locations with
    | none =>
      rw [getFuturesGo, hl] at h
      exact ih _ _ h
    | some locs =>
      by_cases h0 : locs.length = 0
      · rw [getFuturesGo, hl] at h
        simp only [h0, if_true] at h
        cases h
        rfl
      · rw [getFuturesGo, hl] at h
        simp only [h0, if_false] at h
        exact ih _ _ h

/-- C1: if any task of a job declares an explicitly empty location list, then
iterating `run_job` on that job (either executor variant) raises the
no-eligible-workers error (`ValueError("no workers found for task")`) with
zero results yielded, and the offending task is never submitted to the pool:
exactly the tasks strictly before the first offender have been submitted. -/
theorem C1_empty_locations_fail_fast (job : Job) (pool : PoolState)
    (fm : List (Nat × List Future)) (order : List Nat) (canc : Nat → Bool)
    (hbad : ∃ t ∈ job.tasks, t.locations = some []) :
    (DaskJobExecutor.run_job job pool order canc).1 =
        ([], some (PyError.valueError "no workers found for task")) ∧
      (AsyncDaskJobExecutor.run_job { pool := pool, futuresMap := fm } job order
          canc).1 =
        ([], some (PyError.valueError "no workers found for task")) ∧
      (DaskJobExecutor.run_job job pool order canc).2.submitted.length =
        pool.submitted.length +
          job.tasks.findIdx (fun t => decide (t.locations = some [])) := by
  obtain ⟨h1, h2⟩ := getFuturesGo_error job.tasks [] pool hbad
  cases hg : getFuturesGo job.tasks [] pool with
  | mk res pool1 =>
    rw [hg] at h1 h2
    have h1x : res = Except.error (PyError.valueError "no workers found for task") := h1
    have h2x : pool1.submitted.length =
        pool.submitted.length +
          job.tasks.findIdx (fun t => decide (t.locations = some [])) := h2
    subst h1x
    refine ⟨?_, ?_, ?_⟩
    · simp [DaskJobExecutor.run_job, getFutures, hg]
    · simp [AsyncDaskJobExecutor.run_job, runJobRegister, getFutures, hg]
    · simp [DaskJobExecutor.run_job, getFutures, hg, h2x]

/-- Witness for C1 at the spec's concrete scenario: a job with one task
declaring `locations = []`. -/
theorem C1_witness :
    (DaskJobExecutor.run_job { id := 1, tasks := [{ locations := some [], result := 0 }] }
        emptyPool [] (fun _ => false)).1 =
      ([], some (PyError.valueError "no workers found for task")) :=
  (C1_empty_locations_fail_fast
    { id := 1, tasks := [{ locations := some [], result := 0 }] }
    emptyPool [] [] (fun _ => false)
    ⟨{ locations := some [], result := 0 }, by decide, rfl⟩).1

/-- C2: for a job whose tasks all have admissible locations, iterating
`run_job` (either executor variant) under a completion order that is a
permutation of the submission indices, with no cancellation, yields exactly
one result per task: the output has length N, is a permutation of the task
results, and its k-th element is the result of the task completing k-th. -/
theorem C2_results_in_completion_order (job : Job) (pool : PoolState)
    (fm : List (Nat × List Future)) (order : List Nat) (canc : Nat → Bool)
    (hloc : ∀ t ∈ job.tasks, t.locations ≠ some [])
    (hperm : List.Perm order (List.range job.tasks.length))
    (hcanc : ∀ n, canc n = false) :
    (DaskJobExecutor.run_job job pool order canc).1.1.length = job.tasks.length ∧
      List.Perm (DaskJobExecutor.run_job job pool order canc).1.1
        (job.tasks.map Task.result) ∧
      (∀ k i, order.get? k = some i →
        (DaskJobExecutor.run_job job pool order canc).1.1.get? k =
          (job.tasks.get? i).map Task.result) ∧
      (DaskJobExecutor.run_job job pool order canc).1.2 = none ∧
      (AsyncDaskJobExecutor.run_job { pool := pool, futuresMap := fm } job order
          canc).1 =
        (DaskJobExecutor.run_job job pool order canc).1 := by
  have hg : getFutures job pool =
      (Except.ok (mkFutures pool.submitted.length job.tasks),
       { pool with
         submitted := pool.submitted ++ mkFutures pool.submitted.length job.tasks }) := by
    simpa [getFutures] using getFuturesGo_ok job.tasks [] pool hloc
  have hsync : (DaskJobExecutor.run_job job pool order canc).1 =
      ((asCompleted (mkFutures pool.submitted.length job.tasks) order).map
        Future.result, none) := by
    simp [DaskJobExecutor.run_job, hg]
  have hmem : ∀ i ∈ order, i < (mkFutures pool.submitted.length job.tasks).length := by
    intro i hi
    rw [mkFutures_length]
    exact List.mem_range.mp (hperm.subset hi)
  refine ⟨?_, ?_, ?_, ?_, ?_⟩
  · rw [hsync]
    simp only [List.length_map]
    rw [asCompleted, filterMap_get?_length order _ hmem, hperm.length_eq,
      List.length_range]
  · rw [hsync]
    have h1 : List.Perm
        (asCompleted (mkFutures pool.submitted.length job.tasks) order)
        (asCompleted (mkFutures pool.submitted.length job.tasks)
          (List.range job.tasks.length)) :=
      hperm.filterMap _
    have h2 : asCompleted (mkFutures pool.submitted.length job.tasks)
        (List.range job.tasks.length) = mkFutures pool.submitted.length job.tasks := by
      rw [asCompleted,
        show job.tasks.length = (mkFutures pool.submitted.length job.tasks).length from
          (mkFutures_length _ _).symm]
      exact filterMap_get?_range _
    have h3 := (h2 ▸ h1).map Future.result
    rw [mkFutures_map_result] at h3
    exact h3
  · intro k i hk
    rw [hsync]
    simp only [List.get?_map]
    rw [asCompleted, filterMap_get?_get? order _ hmem k i hk, mkFutures_get?]
    cases job.tasks.get? i <;> rfl
  · rw [hsync]
  · have hreg : runJobRegister { pool := pool, futuresMap := fm } job =
        (Except.ok (mkFutures pool.submitted.length job.tasks),
         { pool := { pool with
             submitted := pool.submitted ++ mkFutures pool.submitted.length job.tasks },
           futuresMap := mapInsert fm job.id
             (mkFutures pool.submitted.length job.tasks) }) := by
      simp [runJobRegister, hg]
    have hloop := asyncStreamLoop_nocancel canc hcanc
      (asCompleted (mkFutures pool.submitted.length job.tasks) order) []
    simp only [List.nil_append] at hloop
    rw [hsync]
    simp [AsyncDaskJobExecutor.run_job, hreg, hloop]

def jobC2 : Job :=
  { id := 2,
    tasks := [{ locations := none, result := 10 }, { locations := none, result := 11 },
      { locations := none, result := 12 }] }

/-- Witness for C2: a three-task job completing in reverse submission order. -/
theorem C2_witness :
    (DaskJobExecutor.run_job jobC2 emptyPool [2, 1, 0] (fun _ => false)).1.1.length =
      jobC2.tasks.length :=
  (C2_results_in_completion_order jobC2 emptyPool [] [2, 1, 0] (fun _ => false)
    (by decide) (by decide) (fun _ => rfl)).1

/-- C5 counterexample: a job whose first task is unconstrained and whose
second task declares `locations = []`.  `run_job` aborts with one future
already submitted, yet no cancellation request is ever issued to the pool:
the submitted handle is orphaned, contradicting the claim that already
submitted handles are cancelled while propagating the error. -/
theorem C5_counterexample :
    (DaskJobExecutor.run_job
        { id := 5,
          tasks := [{ locations := none, result := 1 },
            { locations := some [], result := 2 }] }
        emptyPool [0] (fun _ => false)).2.submitted.length = 1 ∧
      (DaskJobExecutor.run_job
        { id := 5,
          tasks := [{ locations := none, result := 1 },
            { locations := some [], result := 2 }] }
        emptyPool [0] (fun _ => false)).2.cancelRequests = [] ∧
      (DaskJobExecutor.run_job
        { id := 5,
          tasks := [{ locations := none, result := 1 },
            { locations := some [], result := 2 }] }
        emptyPool [0] (fun _ => false)).1 =
        ([], some (PyError.valueError "no workers found for task")) :=
  ⟨rfl, rfl, rfl⟩

/-- C5 amended: when submission of a job fails on an explicitly empty
location list, no task at or after the first offending one is submitted
(submissions stop exactly at the offender), the error propagates, and the
pool's cancellation-request log is left untouched — the handles already
submitted for the job are orphaned, not cancelled. -/
theorem C5_abort_leaves_orphans (job : Job) (pool : PoolState) (order : List Nat)
    (canc : Nat → Bool) (hbad : ∃ t ∈ job.tasks, t.locations = some []) :
    (DaskJobExecutor.run_job job pool order canc).1.2 =
        some (PyError.valueError "no workers found for task") ∧
      (DaskJobExecutor.run_job job pool order canc).2.submitted.length =
        pool.submitted.length +
          job.tasks.findIdx (fun t => decide (t.locations = some [])) ∧
      (DaskJobExecutor.run_job job pool order canc).2.cancelRequests =
        pool.cancelRequests := by
  obtain ⟨h1, h2⟩ := getFuturesGo_error job.tasks [] pool hbad
  have h3 := getFuturesGo_cancelRequests job.tasks [] pool
  cases hg : getFuturesGo job.tasks [] pool with
  | mk res pool1 =>
    rw [hg] at h1 h2 h3
    have h1x : res = Except.error (PyError.valueError "no workers found for task") := h1
    subst h1x
    refine ⟨?_, ?_, ?_⟩
    · simp [DaskJobExecutor.run_job, getFutures, hg]
    · simp only [DaskJobExecutor.run_job, getFutures, hg]
      exact h2
    · simp only [DaskJobExecutor.run_job, getFutures, hg]
      exact h3

/-- Witness for C5 amended at the counterexample's input shape, with a
nonempty initial cancellation log to exhibit preservation. -/
theorem C5_witness :
    (DaskJobExecutor.run_job
        { id := 5,
          tasks := [{ locations := some [2], result := 1 },
            { locations := some [], result := 2 }] }
        emptyPool [] (fun _ => false)).2.cancelRequests = emptyPool.cancelRequests :=
  (C5_abort_leaves_orphans
    { id := 5,
      tasks := [{ locations := some [2], result := 1 },
        { locations := some [], result := 2 }] }
    emptyPool [] (fun _ => false)
    ⟨{ locations := some [], result := 2 }, by decide, rfl⟩).2.2

/-- C10: `map_partitions` performs no eligible-worker check: every partition
of the dataset is submitted, with the submission's `workers` constraint equal
to `partition.get_locations()` as-is (in particular a partition whose
locations are explicitly `[]` is submitted rather than rejected), and the
stream never raises. -/
theorem C10_map_partitions_no_check (ps : List Partition) (pool : PoolState)
    (order : List Nat) :
    (DaskJobExecutor.map_partitions ps pool order).1.2 = none ∧
      (DaskJobExecutor.map_partitions ps pool order).2.submitted.length =
        pool.submitted.length + ps.length ∧
      (∀ i, i < ps.length →
        ((DaskJobExecutor.map_partitions ps pool order).2.submitted.get?
            (pool.submitted.length + i)).map Future.workers =
          (ps.get? i).map Partition.locations) := by
  have hs := mapPartitionsSubmit_eq ps pool
  refine ⟨?_, ?_, ?_⟩
  · simp [DaskJobExecutor.map_partitions, hs]
  · simp [DaskJobExecutor.map_partitions, hs, mkFutures_length]
  · intro i hi
    simp only [DaskJobExecutor.map_partitions, hs]
    rw [List.get?_append_right (Nat.le_add_right _ _)]
    simp only [Nat.add_sub_cancel_left]
    rw [mkFutures_get?]
    rw [List.get?_map]
    cases ps.get? i <;> rfl

/-- Witness for C10: a single partition with explicitly empty locations is
submitted, with `workers = some []`. -/
theorem C10_witness :
    ((DaskJobExecutor.map_partitions [{ locations := some [], result := 9 }]
        emptyPool [0]).2.submitted.get? 0).map Future.workers = some (some []) := by
  have h := (C10_map_partitions_no_check [{ locations := some [], result := 9 }]
    emptyPool [0]).2.2 0 (by decide)
  simpa using h

theorem mapInsert_count_one (m : List (Nat × List Future)) (k : Nat)
    (v : List Future) :
    ((mapInsert m k v).filter (fun p => p.1 == k)).length = 1 := by
  unfold mapInsert mapErase
  rw [List.filter_append]
  have h1 : (m.filter (fun p => p.1 != k)).filter (fun p => p.1 == k) = [] := by
    rw [List.filter_eq_nil]
    intro p hp
    have := List.of_mem_filter hp
    simp at this
    simp [this]
  rw [h1]
  simp

def jobC3 : Job := { id := 3, tasks := [{ locations := none, result := 7 }] }

/-- C3 counterexample: with job `jobC3` already tracked (registered by a
first `run_job` that has not completed), a second `run_job` on the same job
object completes without raising any error at all — there is no
`DuplicateJobError` in the code; the dict assignment silently overwrites the
tracked entry. -/
theorem C3_counterexample :
    (AsyncDaskJobExecutor.run_job (runJobRegister emptyAsyncState jobC3).2 jobC3
        [0] (fun _ => false)).1 = ([7], none) := rfl

/-- C3 amended: a second `run_job` registration for an already-tracked job
does not raise; the tracker entry for the job is silently replaced by the new
futures, and the job still appears in the tracker exactly once (Python dict
semantics).  The sync executor has no tracker at all. -/
theorem C3_reregister_overwrites (st : AsyncState) (job : Job)
    (htracked : mapLookup st.futuresMap job.id ≠ none)
    (hloc : ∀ t ∈ job.tasks, t.locations ≠ some []) :
    (runJobRegister st job).1 =
        Except.ok (mkFutures st.pool.submitted.length job.tasks) ∧
      mapLookup (runJobRegister st job).2.futuresMap job.id =
        some (mkFutures st.pool.submitted.length job.tasks) ∧
      ((runJobRegister st job).2.futuresMap.filter
          (fun p => p.1 == job.id)).length = 1 := by
  have hg : getFutures job st.pool =
      (Except.ok (mkFutures st.pool.submitted.length job.tasks),
       { st.pool with
         submitted := st.pool.submitted ++
           mkFutures st.pool.submitted.length job.tasks }) := by
    simpa [getFutures] using getFuturesGo_ok job.tasks [] st.pool hloc
  refine ⟨?_, ?_, ?_⟩
  · simp [runJobRegister, hg]
  · simp only [runJobRegister, hg]
    exact mapLookup_insert_self _ _ _
  · simp only [runJobRegister, hg]
    exact mapInsert_count_one _ _ _

/-- Witness for C3 amended: second registration on the concrete mid-flight
state of `C3_counterexample`. -/
theorem C3_witness :
    (runJobRegister (runJobRegister emptyAsyncState jobC3).2 jobC3).1 =
      Except.ok (mkFutures
        (runJobRegister emptyAsyncState jobC3).2.pool.submitted.length
        jobC3.tasks) :=
  (C3_reregister_overwrites (runJobRegister emptyAsyncState jobC3).2 jobC3
    (by decide) (by decide)).1

def jobC4 : Job := { id := 4, tasks := [{ locations := none, result := 42 }] }

/-- C4 counterexample: with every future cancelled, the synchronous
`DaskJobExecutor.run_job` still yields the delivered result (42) and
terminates normally — it never checks `future.cancelled()`, so the claim
fails for the blocking executor variant. -/
theorem C4_counterexample :
    (DaskJobExecutor.run_job jobC4 emptyPool [0] (fun _ => true)).1 =
      ([42], none) := rfl

/-- C4 amended: only the asynchronous variant surfaces cancellation.  The
async `run_job` stream terminates with `JobCancelledError` exactly when some
delivered future is cancelled; the synchronous `run_job` never consults the
cancellation state, so its outcome is identical whether or not any handle is
cancelled. -/
theorem C4_cancellation_async_only (pool : PoolState)
    (fm : List (Nat × List Future)) (job : Job) (order : List Nat)
    (canc : Nat → Bool) (hloc : ∀ t ∈ job.tasks, t.locations ≠ some []) :
    ((AsyncDaskJobExecutor.run_job { pool := pool, futuresMap := fm } job order
          canc).1.2 = some PyError.jobCancelledError ↔
        ∃ i ∈ order, i < job.tasks.length ∧
          canc (pool.submitted.length + i) = true) ∧
      DaskJobExecutor.run_job job pool order canc =
        DaskJobExecutor.run_job job pool order (fun _ => false) := by
  have hg : getFutures job pool =
      (Except.ok (mkFutures pool.submitted.length job.tasks),
       { pool with
         submitted := pool.submitted ++ mkFutures pool.submitted.length job.tasks }) := by
    simpa [getFutures] using getFuturesGo_ok job.tasks [] pool hloc
  have hreg : runJobRegister { pool := pool, futuresMap := fm } job =
      (Except.ok (mkFutures pool.submitted.length job.tasks),
       { pool := { pool with
           submitted := pool.submitted ++ mkFutures pool.submitted.length job.tasks },
         futuresMap := mapInsert fm job.id
           (mkFutures pool.submitted.length job.tasks) }) := by
    simp [runJobRegister, hg]
  constructor
  · have hterm : (AsyncDaskJobExecutor.run_job { pool := pool, futuresMap := fm }
        job order canc).1.2 =
        (asyncStreamLoop canc
          (asCompleted (mkFutures pool.submitted.length job.tasks) order) []).2 := by
      cases hloop : asyncStreamLoop canc
          (asCompleted (mkFutures pool.submitted.length job.tasks) order) [] with
      | mk results term =>
        cases term with
        | none => simp [AsyncDaskJobExecutor.run_job, hreg, hloop]
        | some e => simp [AsyncDaskJobExecutor.run_job, hreg, hloop]
    rw [hterm, asyncStreamLoop_cancelled_iff]
    constructor
    · rintro ⟨f, hfm, hfc⟩
      obtain ⟨i, hio, hgi⟩ := List.mem_filterMap.mp hfm
      rw [mkFutures_get?] at hgi
      cases hti : job.tasks.get? i with
      | none => rw [hti] at hgi; cases hgi
      | some t =>
        rw [hti] at hgi
        have hgi2 : Future.mk (pool.submitted.length + i) t.locations t.result = f := by
          simpa using hgi
        have hlt : i < job.tasks.length := by
          by_contra hge
          rw [List.get?_eq_none.mpr (Nat.le_of_not_lt hge)] at hti
          cases hti
        refine ⟨i, hio, hlt, ?_⟩
        rw [← hgi2] at hfc
        exact hfc
    · rintro ⟨i, hio, hlt, hc⟩
      refine ⟨Future.mk (pool.submitted.length + i)
          (job.tasks.get ⟨i, hlt⟩).locations (job.tasks.get ⟨i, hlt⟩).result,
        List.mem_filterMap.mpr ⟨i, hio, ?_⟩, hc⟩
      rw [mkFutures_get?, List.get?_eq_get hlt]
      rfl
  · rfl

/-- Witness for C4 amended: async run over one cancelled future surfaces
`JobCancelledError`. -/
theorem C4_witness :
    (AsyncDaskJobExecutor.run_job { pool := emptyPool, futuresMap := [] } jobC4
        [0] (fun _ => true)).1.2 = some PyError.jobCancelledError :=
  (C4_cancellation_async_only emptyPool [] jobC4 [0] (fun _ => true)
    (by decide)).1.mpr ⟨0, by decide, by decide, rfl⟩

/-- C6 counterexample: the synchronous `DaskJobExecutor.close` with a `None`
client raises `AttributeError` (the body dereferences `self.client`
unguarded), contradicting the claim that both variants tolerate a null
connection. -/
theorem C6_counterexample :
    DaskJobExecutor.close false none = Except.error PyError.attributeError := rfl

/-- C6 amended: the asynchronous `close` never raises (its whole body is
wrapped in `try/except`, with a `None` client detected and logged first); the
synchronous `close` never raises when the client is non-null — a second
close on an already-closed client succeeds and a cluster-teardown timeout is
swallowed — but it raises `AttributeError` whenever the client is `None`. -/
theorem C6_close_async_safe_sync_null_raises (il : Bool) :
    (∀ client, ∃ r, AsyncDaskJobExecutor.close il client = Except.ok r) ∧
      (∀ c, ∃ r, DaskJobExecutor.close il (some c) = Except.ok r) ∧
      DaskJobExecutor.close il none = Except.error PyError.attributeError := by
  refine ⟨?_, ?_, rfl⟩
  · intro client
    cases client with
    | none => exact ⟨none, rfl⟩
    | some c =>
      obtain ⟨cluster, cclosed⟩ := c
      cases il with
      | false => exact ⟨_, rfl⟩
      | true =>
        cases cluster with
        | none => exact ⟨_, rfl⟩
        | some cl =>
          obtain ⟨clclosed, cto⟩ := cl
          cases cto with
          | false => exact ⟨_, rfl⟩
          | true => exact ⟨_, rfl⟩
  · intro c
    obtain ⟨cluster, cclosed⟩ := c
    cases il with
    | false => exact ⟨_, rfl⟩
    | true =>
      cases cluster with
      | none => exact ⟨_, rfl⟩
      | some cl =>
        obtain ⟨clclosed, cto⟩ := cl
        cases cto with
        | false => exact ⟨_, rfl⟩
        | true => exact ⟨_, rfl⟩

/-- C7: once the async `run_job` stream is fully exhausted (all tasks had
admissible locations, no future was cancelled), the job is no longer in the
tracker, and a subsequent `cancel_job` on it is a perfect no-op: the executor
state, in particular the pool's cancellation-request log, is unchanged. -/
theorem C7_exhausted_job_forgotten (pool : PoolState)
    (fm : List (Nat × List Future)) (job : Job) (order : List Nat)
    (canc : Nat → Bool) (hloc : ∀ t ∈ job.tasks, t.locations ≠ some [])
    (hcanc : ∀ n, canc n = false) :
    mapLookup (AsyncDaskJobExecutor.run_job { pool := pool, futuresMap := fm }
        job order canc).2.futuresMap job.id = none ∧
      AsyncDaskJobExecutor.cancel_job
          (AsyncDaskJobExecutor.run_job { pool := pool, futuresMap := fm } job
            order canc).2 job =
        (AsyncDaskJobExecutor.run_job { pool := pool, futuresMap := fm } job
          order canc).2 := by
  have hg : getFutures job pool =
      (Except.ok (mkFutures pool.submitted.length job.tasks),
       { pool with
         submitted := pool.submitted ++ mkFutures pool.submitted.length job.tasks }) := by
    simpa [getFutures] using getFuturesGo_ok job.tasks [] pool hloc
  have hreg : runJobRegister { pool := pool, futuresMap := fm } job =
      (Except.ok (mkFutures pool.submitted.length job.tasks),
       { pool := { pool with
           submitted := pool.submitted ++ mkFutures pool.submitted.length job.tasks },
         futuresMap := mapInsert fm job.id
           (mkFutures pool.submitted.length job.tasks) }) := by
    simp [runJobRegister, hg]
  have hloop := asyncStreamLoop_nocancel canc hcanc
    (asCompleted (mkFutures pool.submitted.length job.tasks) order) []
  have hrun : (AsyncDaskJobExecutor.run_job { pool := pool, futuresMap := fm }
      job order canc).2.futuresMap =
      mapErase (mapInsert fm job.id (mkFutures pool.submitted.length job.tasks))
        job.id := by
    simp [AsyncDaskJobExecutor.run_job, hreg, hloop]
  constructor
  · rw [hrun]
    exact mapErase_lookup_self _ _
  · have hnone : mapLookup (AsyncDaskJobExecutor.run_job
        { pool := pool, futuresMap := fm } job order canc).2.futuresMap job.id =
        none := by
      rw [hrun]
      exact mapErase_lookup_self _ _
    rw [AsyncDaskJobExecutor.cancel_job, hnone]

/-- Witness for C7: one unconstrained task, exhausted normally. -/
theorem C7_witness :
    mapLookup (AsyncDaskJobExecutor.run_job
        { pool := emptyPool, futuresMap := [] }
        { id := 7, tasks := [{ locations := none, result := 3 }] } [0]
        (fun _ => false)).2.futuresMap 7 = none :=
  (C7_exhausted_job_forgotten emptyPool []
    { id := 7, tasks := [{ locations := none, result := 3 }] } [0]
    (fun _ => false) (by decide) (fun _ => rfl)).1

/-- C9: in the async executor, when iterating the `run_job` stream terminates
by raising the cancellation error, the job's entry is NOT removed from
`self._futures` (the `del` after the loop is skipped); the entry is removed
exactly when the stream is exhausted normally. -/
theorem C9_cancelled_job_stays_tracked (pool : PoolState)
    (fm : List (Nat × List Future)) (job : Job) (order : List Nat)
    (canc : Nat → Bool) :
    ((AsyncDaskJobExecutor.run_job { pool := pool, futuresMap := fm } job order
          canc).1.2 = some PyError.jobCancelledError →
        mapLookup (AsyncDaskJobExecutor.run_job { pool := pool, futuresMap := fm }
          job order canc).2.futuresMap job.id ≠ none) ∧
      ((AsyncDaskJobExecutor.run_job { pool := pool, futuresMap := fm } job order
          canc).1.2 = none →
        mapLookup (AsyncDaskJobExecutor.run_job { pool := pool, futuresMap := fm }
          job order canc).2.futuresMap job.id = none) := by
  cases hg : getFutures job pool with
  | mk res pool1 =>
    cases res with
    | error e =>
      have he := getFuturesGo_error_eq job.tasks [] pool e pool1
        (by simpa [getFutures] using hg)
      have hrun : AsyncDaskJobExecutor.run_job { pool := pool, futuresMap := fm }
          job order canc =
          (([], some e), { pool := pool1, futuresMap := fm }) := by
        simp [AsyncDaskJobExecutor.run_job, runJobRegister, hg]
      constructor
      · intro hx
        rw [hrun] at hx
        simp only at hx
        rw [he] at hx
        cases hx
      · intro hx
        rw [hrun] at hx
        simp at hx
    | ok fs =>
      cases hloop : asyncStreamLoop canc (asCompleted fs order) [] with
      | mk results term =>
        cases term with
        | none =>
          have hrun : AsyncDaskJobExecutor.run_job
              { pool := pool, futuresMap := fm } job order canc =
              ((results, none),
               { pool := pool1,
                 futuresMap := mapErase (mapInsert fm job.id fs) job.id }) := by
            simp [AsyncDaskJobExecutor.run_job, runJobRegister, hg, hloop]
          constructor
          · intro hx
            rw [hrun] at hx
            simp at hx
          · intro _
            rw [hrun]
            exact mapErase_lookup_self _ _
        | some e =>
          have hrun : AsyncDaskJobExecutor.run_job
              { pool := pool, futuresMap := fm } job order canc =
              ((results, some e),
               { pool := pool1, futuresMap := mapInsert fm job.id fs }) := by
            simp [AsyncDaskJobExecutor.run_job, runJobRegister, hg, hloop]
          constructor
          · intro _
            rw [hrun]
            simp only
            rw [mapLookup_insert_self]
            simp
          · intro hx
            rw [hrun] at hx
            simp at hx

/-- Witness for C9: a run whose only future is cancelled leaves the job
tracked. -/
theorem C9_witness :
    mapLookup (AsyncDaskJobExecutor.run_job
        { pool := emptyPool, futuresMap := [] }
        { id := 9, tasks := [{ locations := none, result := 5 }] } [0]
        (fun _ => true)).2.futuresMap 9 ≠ none :=
  (C9_cancelled_job_stays_tracked emptyPool []
    { id := 9, tasks := [{ locations := none, result := 5 }] } [0]
    (fun _ => true)).1 (by decide)

/-- C8: `set_num_threads n` restores the numeric libraries' thread counts
after the scope exits, for every body — including bodies that raise (the body
returns `Except.error`, and the `finally` blocks still restore): the numba
count and the threadpoolctl-governed count always, and the pyfftw count
whenever pyfftw is present. -/
theorem C8_thread_counts_restored (present : Bool) (n : Nat) (body : ThreadBody)
    (s : ThreadState) :
    (set_num_threads present n body s).2.numba = s.numba ∧
      (set_num_threads present n body s).2.blas = s.blas ∧
      (set_num_threads true n body s).2.fftw = s.fftw := by
  cases present with
  | false => exact ⟨rfl, rfl, rfl⟩
  | true => exact ⟨rfl, rfl, rfl⟩

end LiberTEM
